import Mathlib

/-!
Shallow embedding of the github-stats library core
(contribution-calendar mapping, repository/language pagination,
language aggregation) and proofs of its specified properties.

Conventions of the embedding:
* JavaScript numbers holding contribution counts and byte sizes are
  modelled as `Nat` (the upstream API only produces non-negative
  integers there); percentages are modelled as exact rationals `ℚ`.
* `undefined` / absent optional JSON fields are modelled as `Option`.
* JavaScript `Map` (insertion-ordered) is modelled as an association
  list where a new key is appended at the end and an existing key is
  updated in place.
* JavaScript `Set` is modelled as a duplicate-free list (`addUnique`).
* The asynchronous transport is modelled as a finite script of
  responses consumed in request order; each entry either delivers a
  parsed response or fails at the transport level (non-ok HTTP).
-/

/-! ## Contribution-calendar data model (src: contributions.ts) -/

/-- Raw day as delivered by the GraphQL API
(`weeks[].contributionDays[]`). -/
structure RawDay where
  date : String
  contributionCount : Nat
  color : Option String
deriving Repr, DecidableEq

/-- Raw week as delivered by the GraphQL API. -/
structure RawWeek where
  contributionDays : List RawDay
deriving Repr, DecidableEq

/-- Raw calendar substructure (`contributionCalendar`): the upstream
`totalContributions` field is present but the mapper must not trust it;
`weeks` may be absent (`weeks?`). -/
structure RawCalendar where
  totalContributions : Nat
  weeks : Option (List RawWeek)
deriving Repr, DecidableEq

/-- Normalized contribution day. -/
structure ContributionDay where
  date : String
  count : Nat
  level : Nat
  color : Option String
deriving Repr, DecidableEq

/-- Normalized contribution week. -/
structure ContributionWeek where
  days : List ContributionDay
deriving Repr, DecidableEq

/-- Normalized contribution calendar. -/
structure ContributionCalendar where
  weeks : List ContributionWeek
  total : Nat
deriving Repr, DecidableEq

/-- The intensity-level bucketing performed inside `mapCalendar`:
`if (count === 0) level = 0; else if (count <= 2) level = 1;
else if (count <= 5) level = 2; else if (count <= 10) level = 3;
else level = 4;`. -/
def levelOf (count : Nat) : Nat :=
  if count = 0 then 0
  else if count ≤ 2 then 1
  else if count ≤ 5 then 2
  else if count ≤ 10 then 3
  else 4

/-- Mapping of one raw day inside `mapCalendar`. -/
def mapDay (day : RawDay) : ContributionDay :=
  { date := day.date
    count := day.contributionCount
    level := levelOf day.contributionCount
    color := day.color }

/-- Mapping of one raw week inside `mapCalendar`. -/
def mapWeek (week : RawWeek) : ContributionWeek :=
  { days := week.contributionDays.map mapDay }

/-- Sum of the raw contribution counts of one week; `mapCalendar`
accumulates `total += count` while it maps the days. -/
def weekCountSum (week : RawWeek) : Nat :=
  (week.contributionDays.map (fun d => d.contributionCount)).sum

/-- `mapCalendar(raw)`: `raw.weeks ?? []` is mapped week by week while
`total` accumulates every day's `contributionCount`; the upstream
`totalContributions` field is never read. -/
def mapCalendar (raw : RawCalendar) : ContributionCalendar :=
  { weeks := (raw.weeks.getD []).map mapWeek
    total := ((raw.weeks.getD []).map weekCountSum).sum }

/-- Sum of the `count` fields of all days contained in a normalized
calendar's weeks. -/
def calendarDaysCountSum (weeks : List ContributionWeek) : Nat :=
  (weeks.map (fun w => (w.days.map (fun d => d.count)).sum)).sum

/-! ## Claims C1 and C2 -/

lemma levelOf_le_four (c : Nat) : levelOf c ≤ 4 := by
  unfold levelOf; split_ifs <;> omega

lemma levelOf_monotone {c d : Nat} (h : c ≤ d) : levelOf c ≤ levelOf d := by
  unfold levelOf; split_ifs <;> omega

lemma mapCalendar_day_level (raw : RawCalendar) (w : ContributionWeek)
    (d : ContributionDay) (hw : w ∈ (mapCalendar raw).weeks) (hd : d ∈ w.days) :
    d.level = levelOf d.count := by
  simp only [mapCalendar, List.mem_map] at hw
  obtain ⟨rw, _, rfl⟩ := hw
  simp only [mapWeek, List.mem_map] at hd
  obtain ⟨rd, _, rfl⟩ := hd
  rfl

/-- Claim C1: the calendar mapper buckets every day's count into levels
by the fixed thresholds `0 → 0`, `1–2 → 1`, `3–5 → 2`, `6–10 → 3`,
`> 10 → 4` (upper bounds inclusive); hence the level function is
monotonically non-decreasing in the count and always lies in `0..4`,
and every day produced by `mapCalendar` carries exactly this level. -/
theorem mapCalendar_level_bucketing (c : Nat) :
    (c = 0 → levelOf c = 0) ∧
    (1 ≤ c → c ≤ 2 → levelOf c = 1) ∧
    (3 ≤ c → c ≤ 5 → levelOf c = 2) ∧
    (6 ≤ c → c ≤ 10 → levelOf c = 3) ∧
    (10 < c → levelOf c = 4) ∧
    (∀ d : Nat, c ≤ d → levelOf c ≤ levelOf d) ∧
    levelOf c ≤ 4 ∧
    (∀ (raw : RawCalendar) (w : ContributionWeek) (d : ContributionDay),
      w ∈ (mapCalendar raw).weeks → d ∈ w.days → d.level = levelOf d.count) := by
  refine ⟨?_, ?_, ?_, ?_, ?_, ?_, levelOf_le_four c, ?_⟩
  · intro h; subst h; rfl
  · intro h1 h2; unfold levelOf; split_ifs <;> omega
  · intro h1 h2; unfold levelOf; split_ifs <;> omega
  · intro h1 h2; unfold levelOf; split_ifs <;> omega
  · intro h; unfold levelOf; split_ifs <;> omega
  · intro d hd; exact levelOf_monotone hd
  · intro raw w d hw hd; exact mapCalendar_day_level raw w d hw hd

/-- Concrete instantiation of C1 at count 7 (and the boundary counts),
discharging every hypothesis of `mapCalendar_level_bucketing`. -/
theorem mapCalendar_level_bucketing_witness :
    levelOf 7 = 3 ∧ levelOf 0 = 0 ∧ levelOf 2 = 1 ∧ levelOf 5 = 2 ∧
    levelOf 10 = 3 ∧ levelOf 11 = 4 ∧ levelOf 3 ≤ levelOf 9 := by
  refine ⟨(mapCalendar_level_bucketing 7).2.2.2.1 (by decide) (by decide),
    (mapCalendar_level_bucketing 0).1 rfl,
    (mapCalendar_level_bucketing 2).2.1 (by decide) (by decide),
    (mapCalendar_level_bucketing 5).2.2.1 (by decide) (by decide),
    (mapCalendar_level_bucketing 10).2.2.2.1 (by decide) (by decide),
    (mapCalendar_level_bucketing 11).2.2.2.2.1 (by decide),
    (mapCalendar_level_bucketing 3).2.2.2.2.2.1 9 (by decide)⟩

lemma mapWeek_count_sum (w : RawWeek) :
    ((mapWeek w).days.map (fun d => d.count)).sum = weekCountSum w := by
  simp [mapWeek, weekCountSum, List.map_map, Function.comp_def, mapDay]

/-- Claim C2: for every raw calendar input (any upstream
`totalContributions` value, weeks possibly absent or empty), the
calendar produced by `mapCalendar` has `total` equal to the sum of the
`count` values of all contained days; the result never depends on the
upstream-supplied `totalContributions`, and an absent or empty weeks
list yields `total = 0`. -/
theorem mapCalendar_total_recomputed (raw : RawCalendar) :
    (mapCalendar raw).total = calendarDaysCountSum (mapCalendar raw).weeks ∧
    (∀ tc : Nat, mapCalendar { raw with totalContributions := tc } = mapCalendar raw) ∧
    (raw.weeks = none ∨ raw.weeks = some [] → (mapCalendar raw).total = 0) := by
  refine ⟨?_, ?_, ?_⟩
  · simp [mapCalendar, calendarDaysCountSum, List.map_map, Function.comp_def,
      mapWeek_count_sum]
  · intro tc; simp [mapCalendar]
  · rintro (h | h) <;> simp [mapCalendar, h]

/-- Concrete instantiation of C2 on a two-week calendar whose upstream
`totalContributions` lies about the real sum: the mapper recomputes
`total = 13` from the days. -/
theorem mapCalendar_total_recomputed_witness :
    (mapCalendar
      { totalContributions := 999
        weeks := some
          [ { contributionDays :=
                [ { date := "2025-01-01", contributionCount := 3, color := none }
                , { date := "2025-01-02", contributionCount := 0, color := none } ] }
          , { contributionDays :=
                [ { date := "2025-01-08", contributionCount := 10, color := some "#216e39" } ] } ] }).total
      = 13 ∧
    (mapCalendar { totalContributions := 999, weeks := none }).total = 0 := by
  constructor
  · have h := mapCalendar_total_recomputed
      { totalContributions := 999
        weeks := some
          [ { contributionDays :=
                [ { date := "2025-01-01", contributionCount := 3, color := none }
                , { date := "2025-01-02", contributionCount := 0, color := none } ] }
          , { contributionDays :=
                [ { date := "2025-01-08", contributionCount := 10, color := some "#216e39" } ] } ] }
    rw [h.1]; decide
  · exact (mapCalendar_total_recomputed { totalContributions := 999, weeks := none }).2.2
      (Or.inl rfl)

/-! ## Calendar fetch orchestrator (src: contributions.ts, fetchContributionCalendar) -/

/-- One entry of the GraphQL `errors` array. -/
structure GraphQLErrorEntry where
  message : String
deriving Repr, DecidableEq

/-- Parsed calendar response: `calendar` models
`data?.user?.contributionsCollection?.contributionCalendar` (where any
missing link in the chain collapses to `none`). -/
structure CalendarRawResponse where
  calendar : Option RawCalendar
  errors : List GraphQLErrorEntry
deriving Repr, DecidableEq

/-- Failure modes of `fetchContributionCalendar`. -/
inductive CalendarError where
  /-- Thrown by `if (from > to)`: "Start date must be before end date". -/
  | invalidRange : CalendarError
  /-- The underlying `fetch` rejected (network/transport failure). -/
  | transport (msg : String) : CalendarError
  /-- Thrown on a non-empty `errors` array: "GitHub GraphQL Error: …". -/
  | graphQL (msg : String) : CalendarError
  /-- Thrown when the calendar substructure is missing: user not found. -/
  | notFound : CalendarError
deriving Repr, DecidableEq

/-- `fetchContributionCalendar(username, token, start?, end?)`, with
dates as integer timestamps, the calendar-year subtraction
`setFullYear(getFullYear() - 1)` abstracted as `oneYearBefore`, and the
single transport call scripted as `resp`.  Returns the outcome together
with the number of transport calls issued (0 or 1):
`const to = end ? … : new Date(); const from = start ? … : oneYearBefore(to);
if (from > to) throw …` happens before the `fetch`. -/
def fetchContributionCalendarRun (now : Int) (oneYearBefore : Int → Int)
    (startArg endArg : Option Int) (resp : Except String CalendarRawResponse) :
    Except CalendarError ContributionCalendar × Nat :=
  let toDate := endArg.getD now
  let fromDate := startArg.getD (oneYearBefore toDate)
  if toDate < fromDate then (.error .invalidRange, 0)
  else
    match resp with
    | .error msg => (.error (.transport msg), 1)
    | .ok r =>
      match r.errors with
      | e :: _ => (.error (.graphQL e.message), 1)
      | [] =>
        match r.calendar with
        | none => (.error .notFound, 1)
        | some raw => (.ok (mapCalendar raw), 1)

/-! ## Claim C8 -/

/-- Claim C8: `fetchContributionCalendar` fails with the invalid-range
error exactly when the resolved start date is strictly after the
resolved end date (`end` defaulting to now, `start` defaulting to one
year before the resolved end; equal dates are allowed), and in that
case no transport call is issued (the call count is 0). -/
theorem fetchContributionCalendar_invalidRange (now : Int)
    (oneYearBefore : Int → Int) (startArg endArg : Option Int)
    (resp : Except String CalendarRawResponse) :
    ((fetchContributionCalendarRun now oneYearBefore startArg endArg resp).1
        = .error .invalidRange ∧
     (fetchContributionCalendarRun now oneYearBefore startArg endArg resp).2 = 0)
      ↔ startArg.getD (oneYearBefore (endArg.getD now)) > endArg.getD now := by
  unfold fetchContributionCalendarRun
  by_cases h : endArg.getD now < startArg.getD (oneYearBefore (endArg.getD now))
  · simp [h, gt_iff_lt]
  · simp only [if_neg h, gt_iff_lt]
    constructor
    · intro hc
      exfalso
      rcases resp with msg | r
      · exact CalendarError.noConfusion (Except.error.inj hc.1)
      · rcases hr : r.errors with _ | ⟨e, tl⟩
        · rcases hcal : r.calendar with _ | raw
          · simp [hr, hcal] at hc
          · simp [hr, hcal] at hc
        · simp [hr] at hc
    · intro hc; exact absurd hc h

/-- Concrete instantiation of C8: start 2025-06-01 after end 2025-01-01
(as timestamps 100 and 50) fails with the invalid-range error and
issues zero transport calls; equal dates (50, 50) do not fail this way. -/
theorem fetchContributionCalendar_invalidRange_witness :
    (fetchContributionCalendarRun 0 (fun t => t - 365) (some 100) (some 50)
        (.ok { calendar := none, errors := [] })).1 = .error .invalidRange ∧
    (fetchContributionCalendarRun 0 (fun t => t - 365) (some 100) (some 50)
        (.ok { calendar := none, errors := [] })).2 = 0 ∧
    ¬ ((fetchContributionCalendarRun 0 (fun t => t - 365) (some 50) (some 50)
        (.ok { calendar := none, errors := [] })).1 = .error .invalidRange) := by
  have h1 := (fetchContributionCalendar_invalidRange 0 (fun t => t - 365)
    (some 100) (some 50) (.ok { calendar := none, errors := [] })).mpr (by decide)
  refine ⟨h1.1, h1.2, ?_⟩
  intro hbad
  have h2 : (fetchContributionCalendarRun 0 (fun t => t - 365) (some 50) (some 50)
      (.ok { calendar := none, errors := [] })).1 = .error .notFound := by
    unfold fetchContributionCalendarRun
    norm_num
  rw [h2] at hbad
  exact CalendarError.noConfusion (Except.error.inj hbad)

/-! ## Language statistics data model (src: types/languages.ts) -/

/-- JavaScript truthiness of an optional string (`undefined` and `""`
are falsy). -/
def jsTruthy : Option String → Bool
  | none => false
  | some s => !(s == "")

/-- `pageInfo { hasNextPage endCursor }`. -/
structure PageInfo where
  hasNextPage : Bool
  endCursor : Option String
deriving Repr, DecidableEq

/-- `edges[].node { name color }` of a repository's `languages`
connection. -/
structure LanguageNode where
  name : String
  color : Option String
deriving Repr, DecidableEq

/-- One language edge `{ size, node }`. -/
structure LanguageEdge where
  size : Nat
  node : LanguageNode
deriving Repr, DecidableEq

/-- A repository's `languages` connection; `pageInfo` is optional in
the repository-page shape (`pageInfo?`). -/
structure RepoLanguages where
  pageInfo : Option PageInfo
  edges : List LanguageEdge
deriving Repr, DecidableEq

/-- `owner { login }`. -/
structure OwnerRef where
  login : String
deriving Repr, DecidableEq

/-- One repository node from the repositories connection. -/
structure RepoNode where
  name : String
  owner : OwnerRef
  isFork : Bool
  isPrivate : Bool
  languages : RepoLanguages
deriving Repr, DecidableEq

/-- `viewer.repositories { pageInfo nodes }`. -/
structure RepositoryConnection where
  pageInfo : PageInfo
  nodes : List RepoNode
deriving Repr, DecidableEq

/-- `data.viewer { login repositories }`; `repositories` is `Option`
so that a missing field is representable. -/
structure Viewer where
  login : String
  repositories : Option RepositoryConnection
deriving Repr, DecidableEq

/-- Parsed body of one repository-page response
(`GitHubLanguageResponse`): `viewer` models `data?.viewer?` (a missing
`data` collapses to `none`). -/
structure LangResponse where
  viewer : Option Viewer
  errors : List GraphQLErrorEntry
deriving Repr, DecidableEq

/-- `repository.languages` connection of one single-repository language
page; here `pageInfo` is always present. -/
structure LanguagesConnection where
  pageInfo : PageInfo
  edges : List LanguageEdge
deriving Repr, DecidableEq

/-- Parsed body of one single-repository language-page response
(`GitHubRepoLanguagesResponse`): `repository` models
`data?.repository?.languages` (a missing/null link collapses to
`none`). -/
structure RepoLangsResponse where
  repository : Option LanguagesConnection
  errors : List GraphQLErrorEntry
deriving Repr, DecidableEq

/-- Per-language running aggregation (`LanguageAggregation`): byte sum,
set of contributing repository identifiers (as a duplicate-free list in
insertion order), and a representative color. -/
structure LanguageAggregation where
  bytes : Nat
  repos : List String
  color : Option String
deriving Repr, DecidableEq

/-- Output entry (`LanguageStats`), aliases included. -/
structure LanguageStats where
  language : String
  bytes : Nat
  bytesUsed : Nat
  repos : Nat
  repoCount : Nat
  percentage : ℚ
  percent : ℚ
  color : Option String
deriving Repr, DecidableEq

/-- `RepoCounts` breakdown. -/
structure RepoCounts where
  total : Nat
  publicCount : Nat
  privateCount : Nat
  forks : Nat
  nonForks : Nat
deriving Repr, DecidableEq

/-- Full `LanguageStatsResult`, aliases included. -/
structure LanguageStatsResult where
  languages : List LanguageStats
  languageStats : List LanguageStats
  totalBytes : Nat
  bytesTotal : Nat
  totalRepos : Nat
  reposTotal : Nat
  repoCounts : RepoCounts
  reposAll : RepoCounts
  filteredRepoCounts : RepoCounts
  reposFiltered : RepoCounts
deriving Repr, DecidableEq

/-- Options of `fetchLanguageStats` with their defaults. -/
structure FetchOptions where
  includeForks : Bool := false
  includePrivate : Bool := false
deriving Repr, DecidableEq

/-- Failure modes of the language-stats pipeline. -/
inductive FetchError where
  /-- `postGraphQL` threw on `!response.ok` (or the fetch rejected). -/
  | transport (statusText : String) : FetchError
  /-- `assertNoGraphQLErrors` classified a "forbidden" message. -/
  | permission (msg : String) : FetchError
  /-- `assertNoGraphQLErrors` generic case, first error's message. -/
  | graphQL (msg : String) : FetchError
  /-- `!result.data?.viewer?.repositories`. -/
  | noRepositories : FetchError
  /-- `result.data.viewer.login !== username`. -/
  | identityMismatch (actual requested : String) : FetchError
  /-- The scripted transport ran out of responses while the loop still
  wanted another page (models a server that never terminates
  pagination; the real loop would simply keep requesting). -/
  | scriptExhausted : FetchError
deriving Repr, DecidableEq

/-! ## Response validation (src: languages.ts, assertNoGraphQLErrors) -/

/-- Substring containment on character lists (JS
`String.prototype.includes`). -/
def hasSubstring : List Char → List Char → Bool
  | text, pat =>
    if pat.isPrefixOf text then true
    else
      match text with
      | [] => false
      | _ :: t => hasSubstring t pat

/-- The predicate of `errors.find(e => e.message?.toLowerCase()
.includes("forbidden"))`. -/
def isForbiddenMessage (e : GraphQLErrorEntry) : Bool :=
  hasSubstring (e.message.data.map Char.toLower) "forbidden".data

/-- `assertNoGraphQLErrors(errors)`: returns normally iff the error
list is empty; otherwise a "forbidden" message (searched over the whole
list) is classified as a permission error carrying that message, else a
generic GraphQL error carrying the first message. -/
def assertNoGraphQLErrors (errors : List GraphQLErrorEntry) :
    Except FetchError Unit :=
  match errors with
  | [] => .ok ()
  | first :: _ =>
    match errors.find? isForbiddenMessage with
    | some e => .error (.permission e.message)
    | none => .error (.graphQL first.message)

/-! ## Repository pagination (src: languages.ts, fetchAllRepositories loop) -/

/-- The `while (hasNextPage)` loop of `fetchAllRepositories`, with the
transport scripted as a list of responses consumed in request order.
Each recursive step is one iteration: post the query with the current
`cursor`, run `assertNoGraphQLErrors`, check
`result.data?.viewer?.repositories` and the viewer identity, push the
page's nodes, then continue iff `pageInfo.hasNextPage` with the cursor
updated to `pageInfo.endCursor`.  Returns the collected nodes together
with the list of cursors sent, one per request issued. -/
def fetchRepoPages (username : String) (cursor : Option String) :
    List (Except String LangResponse) →
    Except FetchError (List RepoNode × List (Option String))
  | [] => .error .scriptExhausted
  | .error statusText :: _ => .error (.transport statusText)
  | .ok resp :: rest =>
    match assertNoGraphQLErrors resp.errors with
    | .error e => .error e
    | .ok () =>
      match resp.viewer with
      | none => .error .noRepositories
      | some viewer =>
        match viewer.repositories with
        | none => .error .noRepositories
        | some repos =>
          if viewer.login ≠ username then
            .error (.identityMismatch viewer.login username)
          else if repos.pageInfo.hasNextPage then
            match fetchRepoPages username repos.pageInfo.endCursor rest with
            | .error e => .error e
            | .ok (tailNodes, tailCursors) =>
              .ok (repos.nodes ++ tailNodes, cursor :: tailCursors)
          else
            .ok (repos.nodes, [cursor])

/-! ## Language sub-pagination (src: languages.ts,
fetchRemainingRepoLanguages / enrichRepositoriesWithAllLanguages) -/

/-- The `while (langHasNext)` loop of `fetchRemainingRepoLanguages`:
one scripted response per iteration; a missing
`data?.repository?.languages` breaks out of the loop; otherwise the
page's edges are appended and the loop continues iff
`pageInfo.hasNextPage`.  Returns the collected extra edges and the
unconsumed remainder of the script. -/
def fetchRemainingRepoLanguages (cursor : Option String) :
    List (Except String RepoLangsResponse) →
    Except FetchError (List LanguageEdge × List (Except String RepoLangsResponse))
  | [] => .error .scriptExhausted
  | .error statusText :: _ => .error (.transport statusText)
  | .ok resp :: rest =>
    match assertNoGraphQLErrors resp.errors with
    | .error e => .error e
    | .ok () =>
      match resp.repository with
      | none => .ok ([], rest)
      | some languages =>
        if languages.pageInfo.hasNextPage then
          match fetchRemainingRepoLanguages languages.pageInfo.endCursor rest with
          | .error e => .error e
          | .ok (tailEdges, remaining) =>
            .ok (languages.edges ++ tailEdges, remaining)
        else
          .ok (languages.edges, rest)

/-- One step of `enrichRepositoriesWithAllLanguages`: a repository whose
first language page reported `hasNextPage` gets the remaining edges
appended (`repo.languages.edges.push(...extraEdges)`); all others are
left untouched (`if (!repo.languages.pageInfo?.hasNextPage) continue`). -/
def enrichRepo (repo : RepoNode) (script : List (Except String RepoLangsResponse)) :
    Except FetchError (RepoNode × List (Except String RepoLangsResponse)) :=
  match repo.languages.pageInfo with
  | none => .ok (repo, script)
  | some pi =>
    if pi.hasNextPage then
      match fetchRemainingRepoLanguages pi.endCursor script with
      | .error e => .error e
      | .ok (extraEdges, remaining) =>
        .ok ({ repo with
                languages := { repo.languages with
                                edges := repo.languages.edges ++ extraEdges } },
             remaining)
    else
      .ok (repo, script)

/-- The `for (const repo of repositories)` loop of
`enrichRepositoriesWithAllLanguages`, sequentially consuming one shared
script. -/
def enrichRepositoriesWithAllLanguages :
    List RepoNode → List (Except String RepoLangsResponse) →
    Except FetchError (List RepoNode × List (Except String RepoLangsResponse))
  | [], script => .ok ([], script)
  | repo :: rest, script =>
    match enrichRepo repo script with
    | .error e => .error e
    | .ok (repo2, remaining) =>
      match enrichRepositoriesWithAllLanguages rest remaining with
      | .error e => .error e
      | .ok (rest2, remaining2) => .ok (repo2 :: rest2, remaining2)

/-- `fetchAllRepositories(username, token)`: run the repository-page
loop from a null cursor, then enrich truncated language lists via the
sub-paginator. -/
def fetchAllRepositories (username : String)
    (repoScript : List (Except String LangResponse))
    (langScript : List (Except String RepoLangsResponse)) :
    Except FetchError (List RepoNode) :=
  match fetchRepoPages username none repoScript with
  | .error e => .error e
  | .ok (repositories, _) =>
    match enrichRepositoriesWithAllLanguages repositories langScript with
    | .error e => .error e
    | .ok (enriched, _) => .ok enriched

/-! ## Repo counting and aggregation (src: languages.ts,
getRepoCounts / aggregateLanguageStats) -/

/-- `getRepoCounts(repositories)`. -/
def getRepoCounts (repositories : List RepoNode) : RepoCounts :=
  let total := repositories.length
  let forks := (repositories.filter (fun repo => repo.isFork)).length
  let privateCount := (repositories.filter (fun repo => repo.isPrivate)).length
  { total := total
    publicCount := total - privateCount
    privateCount := privateCount
    forks := forks
    nonForks := total - forks }

/-- JS `Set.prototype.add`: appended only when not already present. -/
def addUnique (l : List String) (x : String) : List String :=
  if x ∈ l then l else l ++ [x]

/-- The repository identifier used during aggregation:
`repo.owner?.login ? owner.login + \x7b\x7d + repo.name : repo.name`
(an empty login string is falsy in JS). -/
def repoIdOf (repo : RepoNode) : String :=
  if repo.owner.login ≠ "" then repo.owner.login ++ "/" ++ repo.name
  else repo.name

/-- The mutations applied to the current aggregation record for one
edge: `current.bytes += size; current.repos.add(repoId);
if (color && !current.color) current.color = color;`. -/
def applyEdge (repoId : String) (edge : LanguageEdge)
    (current : LanguageAggregation) : LanguageAggregation :=
  let updated := { current with
                    bytes := current.bytes + edge.size
                    repos := addUnique current.repos repoId }
  if jsTruthy edge.node.color && !(jsTruthy updated.color) then
    { updated with color := edge.node.color }
  else
    updated

/-- One inner-loop iteration of `aggregateLanguageStats` on the
insertion-ordered map: `current = languageMap.get(name) ??
defaults; …mutations…; languageMap.set(name, current)` — an existing
key is updated in place, a new key is appended at the end. -/
def processEdge (repoId : String) (edge : LanguageEdge) :
    List (String × LanguageAggregation) → List (String × LanguageAggregation)
  | [] => [(edge.node.name,
            applyEdge repoId edge
              { bytes := 0, repos := [], color := edge.node.color })]
  | (k, v) :: rest =>
    if k = edge.node.name then (k, applyEdge repoId edge v) :: rest
    else (k, v) :: processEdge repoId edge rest

/-- One outer-loop iteration of `aggregateLanguageStats`: repositories
with no language edges are skipped, otherwise every edge is folded into
the map. -/
def processRepo (m : List (String × LanguageAggregation)) (repo : RepoNode) :
    List (String × LanguageAggregation) :=
  if repo.languages.edges.isEmpty then m
  else repo.languages.edges.foldl (fun acc e => processEdge (repoIdOf repo) e acc) m

/-- `aggregateLanguageStats(repositories)`. -/
def aggregateLanguageStats (repositories : List RepoNode) :
    List (String × LanguageAggregation) :=
  repositories.foldl processRepo []

/-- `totalBytes = [...languageMap.values()].reduce((sum, lang) =>
sum + lang.bytes, 0)`. -/
def totalBytesOf (m : List (String × LanguageAggregation)) : Nat :=
  (m.map (fun e => e.2.bytes)).sum

/-- `[...languageMap.entries()].map(([name, data]) => (…))`: build the
output entries, percentages computed as `(data.bytes / totalBytes) * 100`
in exact rational arithmetic. -/
def toLanguageStats (totalBytes : Nat)
    (m : List (String × LanguageAggregation)) : List LanguageStats :=
  m.map (fun e =>
    { language := e.1
      bytes := e.2.bytes
      bytesUsed := e.2.bytes
      repos := e.2.repos.length
      repoCount := e.2.repos.length
      percentage := ((e.2.bytes : ℚ) / (totalBytes : ℚ)) * 100
      percent := ((e.2.bytes : ℚ) / (totalBytes : ℚ)) * 100
      color := e.2.color })

/-- Stable insertion of one entry into a list already sorted by
percentage in non-increasing order: the new entry goes after every
existing entry of greater-or-equal percentage, as the stable
`sort((a, b) => b.percentage - a.percentage)` does for elements
arriving later in the input. -/
def insertByPercentageDesc (x : LanguageStats) :
    List LanguageStats → List LanguageStats
  | [] => [x]
  | y :: ys =>
    if y.percentage < x.percentage then x :: y :: ys
    else y :: insertByPercentageDesc x ys

/-- Stable sort by percentage, high to low (ES2019 `Array.prototype.sort`
is stable). -/
def sortByPercentageDesc (l : List LanguageStats) : List LanguageStats :=
  l.foldl (fun acc x => insertByPercentageDesc x acc) []

/-- The option-based client-side filter of `fetchLanguageStats`:
`repositories.filter(repo => { if (!includeForks && repo.isFork)
return false; if (!includePrivate && repo.isPrivate) return false;
return true; })`. -/
def filterRepositories (options : FetchOptions)
    (repositories : List RepoNode) : List RepoNode :=
  repositories.filter (fun repo =>
    if !options.includeForks && repo.isFork then false
    else if !options.includePrivate && repo.isPrivate then false
    else true)

/-- The pure tail of `fetchLanguageStats` after the repositories have
been fetched: counts, option-based filtering, aggregation, the
`totalBytes === 0` early return, and the percentage-annotated sorted
result. -/
def fetchLanguageStatsCore (options : FetchOptions)
    (repositories : List RepoNode) : LanguageStatsResult :=
  let repoCounts := getRepoCounts repositories
  let filteredRepositories := filterRepositories options repositories
  let filteredRepoCounts := getRepoCounts filteredRepositories
  let languageMap := aggregateLanguageStats filteredRepositories
  let totalBytes := totalBytesOf languageMap
  if totalBytes = 0 then
    { languages := []
      languageStats := []
      totalBytes := 0
      bytesTotal := 0
      totalRepos := filteredRepositories.length
      reposTotal := filteredRepositories.length
      repoCounts := repoCounts
      reposAll := repoCounts
      filteredRepoCounts := filteredRepoCounts
      reposFiltered := filteredRepoCounts }
  else
    let languages := sortByPercentageDesc (toLanguageStats totalBytes languageMap)
    { languages := languages
      languageStats := languages
      totalBytes := totalBytes
      bytesTotal := totalBytes
      totalRepos := filteredRepositories.length
      reposTotal := filteredRepositories.length
      repoCounts := repoCounts
      reposAll := repoCounts
      filteredRepoCounts := filteredRepoCounts
      reposFiltered := filteredRepoCounts }

/-- `fetchLanguageStats(username, token, options)` over scripted
transports: fetch and enrich all repositories, then compute the result. -/
def fetchLanguageStatsRun (username : String) (options : FetchOptions)
    (repoScript : List (Except String LangResponse))
    (langScript : List (Except String RepoLangsResponse)) :
    Except FetchError LanguageStatsResult :=
  match fetchAllRepositories username repoScript langScript with
  | .error e => .error e
  | .ok repositories => .ok (fetchLanguageStatsCore options repositories)

/-- The order in which language names are first encountered while
scanning the repositories' edge lists in aggregation order. -/
def firstSeenLanguageNames (repositories : List RepoNode) : List String :=
  repositories.foldl
    (fun acc repo =>
      repo.languages.edges.foldl
        (fun seen e => if e.node.name ∈ seen then seen else seen ++ [e.node.name])
        acc)
    []

/-! ## Claim C3 -/

/-- A well-formed repository-page response for the scripted transport:
no errors, viewer identity `login`, one page of `nodes` with the given
`hasNextPage` flag and `endCursor`. -/
def mkRepoPage (login : String) (nodes : List RepoNode) (hasNext : Bool)
    (endCursor : Option String) : Except String LangResponse :=
  .ok { viewer := some
          { login := login
            repositories := some
              { pageInfo := { hasNextPage := hasNext, endCursor := endCursor }
                nodes := nodes } }
        errors := [] }

/-- Claim C3: the repository paginator starts with a null cursor,
appends each returned page's nodes and updates the cursor to the
server-provided `endCursor`; on a transport returning three pages of
100 repositories with `hasNextPage = true, true, false` it yields
exactly 300 repositories and issues exactly three requests (with
cursors `null, c1, c2`), consuming nothing of the script after the
third page. -/
theorem fetchAllRepositories_three_pages (username : String)
    (n1 n2 n3 : List RepoNode) (c1 c2 c3 : Option String)
    (extra : List (Except String LangResponse))
    (h1 : n1.length = 100) (h2 : n2.length = 100) (h3 : n3.length = 100) :
    fetchRepoPages username none
        (mkRepoPage username n1 true c1 :: mkRepoPage username n2 true c2 ::
          mkRepoPage username n3 false c3 :: extra)
      = .ok (n1 ++ n2 ++ n3, [none, c1, c2]) ∧
    (n1 ++ n2 ++ n3).length = 300 := by
  constructor
  · simp [fetchRepoPages, mkRepoPage, assertNoGraphQLErrors]
  · simp [h1, h2, h3]

/-- Concrete instantiation of C3: three pages of 100 identical public
repositories each, followed by a junk page that must never be
requested. -/
theorem fetchAllRepositories_three_pages_witness :
    fetchRepoPages "octocat" none
        (mkRepoPage "octocat"
            (List.replicate 100
              { name := "r", owner := { login := "octocat" }, isFork := false
                isPrivate := false, languages := { pageInfo := none, edges := [] } })
            true (some "c1") ::
          mkRepoPage "octocat"
            (List.replicate 100
              { name := "r", owner := { login := "octocat" }, isFork := false
                isPrivate := false, languages := { pageInfo := none, edges := [] } })
            true (some "c2") ::
          mkRepoPage "octocat"
            (List.replicate 100
              { name := "r", owner := { login := "octocat" }, isFork := false
                isPrivate := false, languages := { pageInfo := none, edges := [] } })
            false (some "c3") ::
          [mkRepoPage "junk" [] false none])
      = .ok ((List.replicate 100
              { name := "r", owner := { login := "octocat" }, isFork := false
                isPrivate := false, languages := { pageInfo := none, edges := [] } } :
              List RepoNode) ++
            List.replicate 100
              { name := "r", owner := { login := "octocat" }, isFork := false
                isPrivate := false, languages := { pageInfo := none, edges := [] } } ++
            List.replicate 100
              { name := "r", owner := { login := "octocat" }, isFork := false
                isPrivate := false, languages := { pageInfo := none, edges := [] } },
            [none, some "c1", some "c2"]) := by
  exact (fetchAllRepositories_three_pages "octocat" _ _ _ (some "c1") (some "c2")
    (some "c3") _ (by simp) (by simp) (by simp)).1

/-! ## Claim C7 -/

/-- Claim C7 as stated is refuted at a concrete input: with errors
`["boom", "Forbidden"]` — where the first message does not contain
"forbidden" but a later one does — the validator produces the
permission error (for the later message), not the generic GraphQL
error carrying the first message that the claim predicts. -/
theorem assertNoGraphQLErrors_first_only_counterexample :
    assertNoGraphQLErrors [{ message := "boom" }, { message := "Forbidden" }]
        = .error (.permission "Forbidden") ∧
    assertNoGraphQLErrors [{ message := "boom" }, { message := "Forbidden" }]
        ≠ .error (.graphQL "boom") := by
  constructor
  · rfl
  · intro h
    have h2 : Except.error (ε := FetchError) (α := Unit) (.permission "Forbidden")
        = .error (.graphQL "boom") := by
      rw [← h]; rfl
    exact FetchError.noConfusion (Except.error.inj h2)

/-- Claim C7 (amended): whenever a GraphQL response carries a non-empty
errors array the repository-pagination step fails even if data is also
present; the failure is a permission error carrying the message of the
first error whose message contains "forbidden" case-insensitively (in
particular whenever the first error's message does), and it is the
generic GraphQL error carrying the first error's message exactly when
no error message in the array contains "forbidden". -/
theorem assertNoGraphQLErrors_classification (first : GraphQLErrorEntry)
    (rest : List GraphQLErrorEntry) (username : String) (cursor : Option String)
    (resp : LangResponse) (script : List (Except String LangResponse))
    (hresp : resp.errors = first :: rest) :
    (∃ e : FetchError,
        fetchRepoPages username cursor (.ok resp :: script) = .error e) ∧
    (isForbiddenMessage first = true →
        assertNoGraphQLErrors (first :: rest) = .error (.permission first.message)) ∧
    (∀ e, (first :: rest).find? isForbiddenMessage = some e →
        assertNoGraphQLErrors (first :: rest) = .error (.permission e.message)) ∧
    ((∀ e ∈ first :: rest, isForbiddenMessage e = false) →
        assertNoGraphQLErrors (first :: rest) = .error (.graphQL first.message)) := by
  refine ⟨?_, ?_, ?_, ?_⟩
  · rcases hfind : (first :: rest).find? isForbiddenMessage with _ | e
    · exact ⟨.graphQL first.message,
        by simp [fetchRepoPages, assertNoGraphQLErrors, hresp, hfind]⟩
    · exact ⟨.permission e.message,
        by simp [fetchRepoPages, assertNoGraphQLErrors, hresp, hfind]⟩
  · intro hforb
    simp [assertNoGraphQLErrors, List.find?, hforb]
  · intro e hfind
    simp [assertNoGraphQLErrors, hfind]
  · intro hnone
    have hfind : (first :: rest).find? isForbiddenMessage = none :=
      List.find?_eq_none.mpr (fun e he => by simp [hnone e he])
    simp [assertNoGraphQLErrors, hfind]

/-- Concrete instantiation of the amended C7: a response whose data is
present and whose single error message is "Forbidden" makes the
pagination step fail, and the validator classifies it as a permission
error; a lone "boom" error yields the generic GraphQL error. -/
theorem assertNoGraphQLErrors_classification_witness :
    (∃ e : FetchError,
        fetchRepoPages "u" none
          [Except.ok (LangResponse.mk
            (some (Viewer.mk "u"
              (some (RepositoryConnection.mk (PageInfo.mk false none) []))))
            [GraphQLErrorEntry.mk "Forbidden"])] = .error e) ∧
    assertNoGraphQLErrors [GraphQLErrorEntry.mk "Forbidden"]
      = .error (.permission "Forbidden") ∧
    assertNoGraphQLErrors [GraphQLErrorEntry.mk "boom"]
      = .error (.graphQL "boom") := by
  have h1 := assertNoGraphQLErrors_classification (GraphQLErrorEntry.mk "Forbidden")
    [] "u" none
    (LangResponse.mk
      (some (Viewer.mk "u"
        (some (RepositoryConnection.mk (PageInfo.mk false none) []))))
      [GraphQLErrorEntry.mk "Forbidden"])
    [] rfl
  have h2 := assertNoGraphQLErrors_classification (GraphQLErrorEntry.mk "boom") []
    "u" none (LangResponse.mk none [GraphQLErrorEntry.mk "boom"]) [] rfl
  exact ⟨h1.1, h1.2.1 (by decide), h2.2.2.2 (by decide)⟩

/-! ## Sorting lemmas for the percentage-descending stable sort -/

lemma mem_insertByPercentageDesc {x z : LanguageStats} {l : List LanguageStats} :
    z ∈ insertByPercentageDesc x l ↔ z = x ∨ z ∈ l := by
  induction l with
  | nil => simp [insertByPercentageDesc]
  | cons y ys ih =>
    simp only [insertByPercentageDesc]
    split_ifs with h
    · simp [List.mem_cons]
    · simp only [List.mem_cons, ih]
      tauto

lemma insertByPercentageDesc_perm (x : LanguageStats) (l : List LanguageStats) :
    List.Perm (insertByPercentageDesc x l) (x :: l) := by
  induction l with
  | nil => exact List.Perm.refl _
  | cons y ys ih =>
    simp only [insertByPercentageDesc]
    split_ifs with h
    · exact List.Perm.refl _
    · exact (ih.cons y).trans (List.Perm.swap x y ys)

lemma insertByPercentageDesc_pairwise (x : LanguageStats) {l : List LanguageStats}
    (h : l.Pairwise (fun a b => b.percentage ≤ a.percentage)) :
    (insertByPercentageDesc x l).Pairwise (fun a b => b.percentage ≤ a.percentage) := by
  induction l with
  | nil => simp [insertByPercentageDesc]
  | cons y ys ih =>
    obtain ⟨hy, hys⟩ := List.pairwise_cons.mp h
    simp only [insertByPercentageDesc]
    split_ifs with hlt
    · refine List.pairwise_cons.mpr ⟨?_, h⟩
      intro z hz
      rcases List.mem_cons.mp hz with rfl | hz
      · exact le_of_lt hlt
      · exact le_trans (hy z hz) (le_of_lt hlt)
    · refine List.pairwise_cons.mpr ⟨?_, ih hys⟩
      intro z hz
      rcases mem_insertByPercentageDesc.mp hz with rfl | hz
      · exact not_lt.mp hlt
      · exact hy z hz

lemma insertByPercentageDesc_filter (p : ℚ) (x : LanguageStats)
    {l : List LanguageStats}
    (h : l.Pairwise (fun a b => b.percentage ≤ a.percentage)) :
    (insertByPercentageDesc x l).filter (fun s => decide (s.percentage = p))
      = l.filter (fun s => decide (s.percentage = p))
        ++ if x.percentage = p then [x] else [] := by
  induction l with
  | nil =>
    by_cases hx : x.percentage = p <;>
      simp [insertByPercentageDesc, List.filter, hx]
  | cons y ys ih =>
    obtain ⟨hy, hys⟩ := List.pairwise_cons.mp h
    by_cases hlt : y.percentage < x.percentage
    · rw [show insertByPercentageDesc x (y :: ys) = x :: y :: ys from by
        simp [insertByPercentageDesc, hlt]]
      by_cases hxp : x.percentage = p
      · have hfil : (y :: ys).filter (fun s => decide (s.percentage = p)) = [] := by
          rw [List.filter_eq_nil_iff]
          intro z hz
          rcases List.mem_cons.mp hz with rfl | hz
          · simp only [decide_eq_true_eq]
            intro hzp; rw [hxp] at hlt; rw [hzp] at hlt; exact lt_irrefl _ hlt
          · simp only [decide_eq_true_eq]
            intro hzp
            have hzy := hy z hz
            rw [hzp, ← hxp] at hzy
            exact absurd (lt_of_lt_of_le hlt hzy) (lt_irrefl _)
        simp [List.filter_cons, hxp, hfil]
      · simp [List.filter_cons, hxp]
    · rw [show insertByPercentageDesc x (y :: ys) = y :: insertByPercentageDesc x ys from by
        simp [insertByPercentageDesc, hlt]]
      simp only [List.filter_cons, ih hys]
      by_cases hyp : y.percentage = p <;> by_cases hxp : x.percentage = p <;>
        simp [hyp, hxp]

lemma foldl_insertByPercentageDesc_pairwise :
    ∀ (l acc : List LanguageStats),
      acc.Pairwise (fun a b => b.percentage ≤ a.percentage) →
      (l.foldl (fun a x => insertByPercentageDesc x a) acc).Pairwise
        (fun a b => b.percentage ≤ a.percentage) := by
  intro l
  induction l with
  | nil => intro acc h; exact h
  | cons x xs ih =>
    intro acc h
    exact ih _ (insertByPercentageDesc_pairwise x h)

lemma foldl_insertByPercentageDesc_perm :
    ∀ (l acc : List LanguageStats),
      List.Perm (l.foldl (fun a x => insertByPercentageDesc x a) acc) (acc ++ l) := by
  intro l
  induction l with
  | nil => intro acc; simp
  | cons x xs ih =>
    intro acc
    refine (ih (insertByPercentageDesc x acc)).trans ?_
    refine (((insertByPercentageDesc_perm x acc).append_right xs).trans ?_)
    exact List.perm_middle.symm

lemma foldl_insertByPercentageDesc_filter (p : ℚ) :
    ∀ (l acc : List LanguageStats),
      acc.Pairwise (fun a b => b.percentage ≤ a.percentage) →
      (l.foldl (fun a x => insertByPercentageDesc x a) acc).filter
          (fun s => decide (s.percentage = p))
        = acc.filter (fun s => decide (s.percentage = p))
          ++ l.filter (fun s => decide (s.percentage = p)) := by
  intro l
  induction l with
  | nil => intro acc _; simp
  | cons x xs ih =>
    intro acc h
    rw [List.foldl_cons, ih _ (insertByPercentageDesc_pairwise x h),
      insertByPercentageDesc_filter p x h, List.filter_cons]
    by_cases hx : x.percentage = p <;> simp [hx]

lemma sortByPercentageDesc_pairwise (l : List LanguageStats) :
    (sortByPercentageDesc l).Pairwise (fun a b => b.percentage ≤ a.percentage) :=
  foldl_insertByPercentageDesc_pairwise l [] (by simp)

lemma sortByPercentageDesc_perm (l : List LanguageStats) :
    List.Perm (sortByPercentageDesc l) l := by
  simpa using foldl_insertByPercentageDesc_perm l []

lemma sortByPercentageDesc_filter (p : ℚ) (l : List LanguageStats) :
    (sortByPercentageDesc l).filter (fun s => decide (s.percentage = p))
      = l.filter (fun s => decide (s.percentage = p)) := by
  simpa using foldl_insertByPercentageDesc_filter p l [] (by simp)

/-! ## Percentage-sum lemmas -/

lemma toLanguageStats_map_percentage (totalBytes : Nat)
    (m : List (String × LanguageAggregation)) :
    (toLanguageStats totalBytes m).map (fun s => s.percentage)
      = m.map (fun e => ((e.2.bytes : ℚ) / (totalBytes : ℚ)) * 100) := by
  simp [toLanguageStats, List.map_map, Function.comp_def]

lemma sum_map_div_mul (T : ℚ) (m : List (String × LanguageAggregation)) :
    (m.map (fun e => ((e.2.bytes : ℚ) / T) * 100)).sum
      = ((totalBytesOf m : ℚ) / T) * 100 := by
  induction m with
  | nil => simp [totalBytesOf]
  | cons e tl ih =>
    have hcast : (totalBytesOf (e :: tl) : ℚ)
        = (e.2.bytes : ℚ) + (totalBytesOf tl : ℚ) := by
      simp [totalBytesOf]
    simp only [List.map_cons, List.sum_cons, ih, hcast]
    rw [add_div, add_mul]

lemma toLanguageStats_percentage_sum (m : List (String × LanguageAggregation))
    (h : totalBytesOf m ≠ 0) :
    ((toLanguageStats (totalBytesOf m) m).map (fun s => s.percentage)).sum = 100 := by
  rw [toLanguageStats_map_percentage, sum_map_div_mul]
  have hT : ((totalBytesOf m : ℚ)) ≠ 0 := Nat.cast_ne_zero.mpr h
  rw [div_self hT, one_mul]

/-! ## Claim C4 -/

/-- Claim C4: whenever the aggregated `totalBytes` is non-zero, the
percentages of the `LanguageStats` entries produced by
`fetchLanguageStats` (each `100 * bytes / totalBytes` in exact
arithmetic) sum to 100 within a tolerance of `1e-6` (the sum is in fact
exactly 100 in the rational model of the floating-point computation). -/
theorem fetchLanguageStats_percentage_sum (options : FetchOptions)
    (repositories : List RepoNode)
    (h : (fetchLanguageStatsCore options repositories).totalBytes ≠ 0) :
    |(((fetchLanguageStatsCore options repositories).languages.map
        (fun s => s.percentage)).sum) - 100| ≤ 1 / 1000000 := by
  by_cases h0 : totalBytesOf
      (aggregateLanguageStats (filterRepositories options repositories)) = 0
  · exact absurd (by simp [fetchLanguageStatsCore, h0]) h
  · have hres : (fetchLanguageStatsCore options repositories).languages
        = sortByPercentageDesc (toLanguageStats
            (totalBytesOf (aggregateLanguageStats (filterRepositories options repositories)))
            (aggregateLanguageStats (filterRepositories options repositories))) := by
      simp [fetchLanguageStatsCore, h0]
    rw [hres]
    have hperm := (sortByPercentageDesc_perm (toLanguageStats
      (totalBytesOf (aggregateLanguageStats (filterRepositories options repositories)))
      (aggregateLanguageStats (filterRepositories options repositories)))).map
      (fun s => s.percentage)
    rw [hperm.sum_eq, toLanguageStats_percentage_sum _ h0]
    norm_num

/-- Concrete instantiation of C4: one repository with TypeScript (3
bytes) and Lua (1 byte); the returned percentages (75 and 25) sum to
exactly 100. -/
theorem fetchLanguageStats_percentage_sum_witness :
    |(((fetchLanguageStatsCore {}
        [{ name := "r", owner := { login := "u" }, isFork := false
           isPrivate := false
           languages := { pageInfo := none
                          edges := [{ size := 3, node := { name := "TypeScript", color := none } },
                                    { size := 1, node := { name := "Lua", color := none } }] } }]).languages.map
        (fun s => s.percentage)).sum) - 100| ≤ 1 / 1000000 := by
  exact fetchLanguageStats_percentage_sum {}
    [{ name := "r", owner := { login := "u" }, isFork := false
       isPrivate := false
       languages := { pageInfo := none
                      edges := [{ size := 3, node := { name := "TypeScript", color := none } },
                                { size := 1, node := { name := "Lua", color := none } }] } }]
    (by decide)

/-! ## Key-order lemmas: the aggregation map lists language names in
first-encountered order -/

lemma processEdge_keys (repoId : String) (edge : LanguageEdge) :
    ∀ m : List (String × LanguageAggregation),
      (processEdge repoId edge m).map Prod.fst
        = if edge.node.name ∈ m.map Prod.fst then m.map Prod.fst
          else m.map Prod.fst ++ [edge.node.name] := by
  intro m
  induction m with
  | nil => simp [processEdge]
  | cons kv rest ih =>
    obtain ⟨k, v⟩ := kv
    by_cases hk : k = edge.node.name
    · simp [processEdge, hk]
    · rw [show processEdge repoId edge ((k, v) :: rest)
          = (k, v) :: processEdge repoId edge rest from by
        simp [processEdge, hk]]
      have hne : edge.node.name ≠ k := fun hcontra => hk hcontra.symm
      simp only [List.map_cons, ih, List.mem_cons, hne, false_or]
      by_cases hr : edge.node.name ∈ rest.map Prod.fst
      · simp [hr]
      · simp [hr]

lemma foldl_processEdge_keys (repoId : String) :
    ∀ (edges : List LanguageEdge) (m : List (String × LanguageAggregation)),
      ((edges.foldl (fun acc e => processEdge repoId e acc) m).map Prod.fst)
        = edges.foldl
            (fun seen e => if e.node.name ∈ seen then seen else seen ++ [e.node.name])
            (m.map Prod.fst) := by
  intro edges
  induction edges with
  | nil => intro m; rfl
  | cons e es ih =>
    intro m
    rw [List.foldl_cons, List.foldl_cons, ih, processEdge_keys]

lemma processRepo_keys (m : List (String × LanguageAggregation)) (repo : RepoNode) :
    (processRepo m repo).map Prod.fst
      = repo.languages.edges.foldl
          (fun seen e => if e.node.name ∈ seen then seen else seen ++ [e.node.name])
          (m.map Prod.fst) := by
  unfold processRepo
  by_cases he : repo.languages.edges.isEmpty
  · rw [if_pos he]
    rw [List.isEmpty_iff] at he
    rw [he]
    rfl
  · rw [if_neg he, foldl_processEdge_keys]

lemma aggregate_foldl_keys :
    ∀ (repos : List RepoNode) (m : List (String × LanguageAggregation)),
      ((repos.foldl processRepo m).map Prod.fst)
        = repos.foldl
            (fun acc repo => repo.languages.edges.foldl
              (fun seen e => if e.node.name ∈ seen then seen else seen ++ [e.node.name])
              acc)
            (m.map Prod.fst) := by
  intro repos
  induction repos with
  | nil => intro m; rfl
  | cons r rs ih =>
    intro m
    rw [List.foldl_cons, List.foldl_cons, ih, processRepo_keys]

lemma aggregateLanguageStats_keys (repos : List RepoNode) :
    (aggregateLanguageStats repos).map Prod.fst = firstSeenLanguageNames repos := by
  unfold aggregateLanguageStats firstSeenLanguageNames
  rw [aggregate_foldl_keys]
  rfl

/-! ## Claim C5 -/

/-- Claim C5: for every input with non-zero aggregated bytes, the
languages list returned by `fetchLanguageStats` is sorted in
non-increasing order of percentage, and the sort is stable: for every
percentage value, filtering the output on that exact value yields the
entries in the same order as in the unsorted aggregation-order list,
whose language names appear in first-encountered order. -/
theorem fetchLanguageStats_sorted_stable (options : FetchOptions)
    (repositories : List RepoNode)
    (h : (fetchLanguageStatsCore options repositories).totalBytes ≠ 0) :
    (fetchLanguageStatsCore options repositories).languages.Pairwise
        (fun a b => b.percentage ≤ a.percentage) ∧
    (∀ p : ℚ,
      (fetchLanguageStatsCore options repositories).languages.filter
          (fun s => decide (s.percentage = p))
        = (toLanguageStats
            (fetchLanguageStatsCore options repositories).totalBytes
            (aggregateLanguageStats (filterRepositories options repositories))).filter
          (fun s => decide (s.percentage = p))) ∧
    (aggregateLanguageStats (filterRepositories options repositories)).map Prod.fst
      = firstSeenLanguageNames (filterRepositories options repositories) := by
  by_cases h0 : totalBytesOf
      (aggregateLanguageStats (filterRepositories options repositories)) = 0
  · exact absurd (by simp [fetchLanguageStatsCore, h0]) h
  · have hres : (fetchLanguageStatsCore options repositories).languages
        = sortByPercentageDesc (toLanguageStats
            (totalBytesOf (aggregateLanguageStats (filterRepositories options repositories)))
            (aggregateLanguageStats (filterRepositories options repositories))) := by
      simp [fetchLanguageStatsCore, h0]
    have htb : (fetchLanguageStatsCore options repositories).totalBytes
        = totalBytesOf (aggregateLanguageStats (filterRepositories options repositories)) := by
      simp [fetchLanguageStatsCore, h0]
    refine ⟨?_, ?_, aggregateLanguageStats_keys _⟩
    · rw [hres]; exact sortByPercentageDesc_pairwise _
    · intro p
      rw [hres, htb, sortByPercentageDesc_filter]

/-- Concrete instantiation of C5 with an exact percentage tie: one
repository with Lua (5 bytes), Haskell (5 bytes) and C (10 bytes);
among the two 25% entries Lua (first seen) stays before Haskell. -/
theorem fetchLanguageStats_sorted_stable_witness :
    (fetchLanguageStatsCore {}
        [{ name := "r", owner := { login := "u" }, isFork := false
           isPrivate := false
           languages := { pageInfo := none
                          edges := [{ size := 5, node := { name := "Lua", color := none } },
                                    { size := 5, node := { name := "Haskell", color := none } },
                                    { size := 10, node := { name := "C", color := none } }] } }]).languages.Pairwise
        (fun a b => b.percentage ≤ a.percentage) ∧
    ((fetchLanguageStatsCore {}
        [{ name := "r", owner := { login := "u" }, isFork := false
           isPrivate := false
           languages := { pageInfo := none
                          edges := [{ size := 5, node := { name := "Lua", color := none } },
                                    { size := 5, node := { name := "Haskell", color := none } },
                                    { size := 10, node := { name := "C", color := none } }] } }]).languages.filter
        (fun s => decide (s.percentage = 25))).map (fun s => s.language)
      = ["Lua", "Haskell"] := by
  have h := fetchLanguageStats_sorted_stable {}
    [{ name := "r", owner := { login := "u" }, isFork := false
       isPrivate := false
       languages := { pageInfo := none
                      edges := [{ size := 5, node := { name := "Lua", color := none } },
                                { size := 5, node := { name := "Haskell", color := none } },
                                { size := 10, node := { name := "C", color := none } }] } }]
    (by decide)
  refine ⟨h.1, ?_⟩
  rw [h.2.1 25]
  have hM : aggregateLanguageStats (filterRepositories {}
      [{ name := "r", owner := { login := "u" }, isFork := false
         isPrivate := false
         languages := { pageInfo := none
                        edges := [{ size := 5, node := { name := "Lua", color := none } },
                                  { size := 5, node := { name := "Haskell", color := none } },
                                  { size := 10, node := { name := "C", color := none } }] } }])
      = [("Lua", { bytes := 5, repos := ["u/r"], color := none }),
         ("Haskell", { bytes := 5, repos := ["u/r"], color := none }),
         ("C", { bytes := 10, repos := ["u/r"], color := none })] := by decide
  have hT : (fetchLanguageStatsCore {}
      [{ name := "r", owner := { login := "u" }, isFork := false
         isPrivate := false
         languages := { pageInfo := none
                        edges := [{ size := 5, node := { name := "Lua", color := none } },
                                  { size := 5, node := { name := "Haskell", color := none } },
                                  { size := 10, node := { name := "C", color := none } }] } }]).totalBytes
      = 20 := by decide
  rw [hT, hM]
  simp only [toLanguageStats, List.map_cons, List.map_nil]
  norm_num [List.filter]

/-! ## Byte-total lemmas for the aggregation -/

lemma applyEdge_bytes (repoId : String) (edge : LanguageEdge)
    (current : LanguageAggregation) :
    (applyEdge repoId edge current).bytes = current.bytes + edge.size := by
  unfold applyEdge
  dsimp only
  split_ifs <;> rfl

lemma totalBytesOf_processEdge (repoId : String) (edge : LanguageEdge) :
    ∀ m : List (String × LanguageAggregation),
      totalBytesOf (processEdge repoId edge m) = totalBytesOf m + edge.size := by
  intro m
  induction m with
  | nil => simp [processEdge, totalBytesOf, applyEdge_bytes]
  | cons kv rest ih =>
    obtain ⟨k, v⟩ := kv
    by_cases hk : k = edge.node.name
    · simp [processEdge, hk, totalBytesOf, applyEdge_bytes]
      omega
    · rw [show processEdge repoId edge ((k, v) :: rest)
          = (k, v) :: processEdge repoId edge rest from by
        simp [processEdge, hk]]
      simp only [totalBytesOf, List.map_cons, List.sum_cons] at ih ⊢
      omega

lemma totalBytesOf_foldl_edges (repoId : String) :
    ∀ (edges : List LanguageEdge) (m : List (String × LanguageAggregation)),
      totalBytesOf (edges.foldl (fun acc e => processEdge repoId e acc) m)
        = totalBytesOf m + (edges.map (fun e => e.size)).sum := by
  intro edges
  induction edges with
  | nil => intro m; simp
  | cons e es ih =>
    intro m
    rw [List.foldl_cons, ih, totalBytesOf_processEdge]
    simp
    omega

lemma totalBytesOf_processRepo (m : List (String × LanguageAggregation))
    (repo : RepoNode) :
    totalBytesOf (processRepo m repo)
      = totalBytesOf m + (repo.languages.edges.map (fun e => e.size)).sum := by
  unfold processRepo
  by_cases he : repo.languages.edges.isEmpty
  · rw [if_pos he]
    rw [List.isEmpty_iff] at he
    simp [he]
  · rw [if_neg he, totalBytesOf_foldl_edges]

lemma totalBytesOf_aggregate_foldl :
    ∀ (repos : List RepoNode) (m : List (String × LanguageAggregation)),
      totalBytesOf (repos.foldl processRepo m)
        = totalBytesOf m
          + (repos.map (fun r => (r.languages.edges.map (fun e => e.size)).sum)).sum := by
  intro repos
  induction repos with
  | nil => intro m; simp
  | cons r rs ih =>
    intro m
    rw [List.foldl_cons, ih, totalBytesOf_processRepo]
    simp
    omega

lemma totalBytesOf_aggregate (repos : List RepoNode) :
    totalBytesOf (aggregateLanguageStats repos)
      = (repos.map (fun r => (r.languages.edges.map (fun e => e.size)).sum)).sum := by
  unfold aggregateLanguageStats
  rw [totalBytesOf_aggregate_foldl]
  simp [totalBytesOf]

/-! ## Claim C6 -/

/-- Claim C6: if every filtered repository has zero language edges then
`fetchLanguageStats` returns an empty languages list with
`totalBytes = 0`; the same early return fires whenever the aggregated
byte total is zero, so the percentage division is never reached; and
when every edge carries a positive byte size the two conditions are
equivalent. -/
theorem fetchLanguageStats_zero_bytes (options : FetchOptions)
    (repositories : List RepoNode) :
    ((∀ repo ∈ filterRepositories options repositories,
        repo.languages.edges = []) →
      (fetchLanguageStatsCore options repositories).languages = [] ∧
      (fetchLanguageStatsCore options repositories).totalBytes = 0) ∧
    (totalBytesOf (aggregateLanguageStats (filterRepositories options repositories)) = 0 →
      (fetchLanguageStatsCore options repositories).languages = [] ∧
      (fetchLanguageStatsCore options repositories).totalBytes = 0) ∧
    ((∀ repo ∈ filterRepositories options repositories,
        ∀ e ∈ repo.languages.edges, 0 < e.size) →
      (totalBytesOf (aggregateLanguageStats (filterRepositories options repositories)) = 0
        ↔ ∀ repo ∈ filterRepositories options repositories,
            repo.languages.edges = [])) := by
  have hzero : totalBytesOf (aggregateLanguageStats (filterRepositories options repositories)) = 0 →
      (fetchLanguageStatsCore options repositories).languages = [] ∧
      (fetchLanguageStatsCore options repositories).totalBytes = 0 := by
    intro h0
    constructor <;> simp [fetchLanguageStatsCore, h0]
  refine ⟨?_, hzero, ?_⟩
  · intro hempty
    apply hzero
    rw [totalBytesOf_aggregate]
    apply List.sum_eq_zero
    intro x hx
    rw [List.mem_map] at hx
    obtain ⟨r, hr, rfl⟩ := hx
    rw [hempty r hr]
    rfl
  · intro hpos
    rw [totalBytesOf_aggregate]
    constructor
    · intro hsum repo hrepo
      have hz := (List.sum_eq_zero_iff.mp hsum)
        ((repo.languages.edges.map (fun e => e.size)).sum)
        (List.mem_map_of_mem _ hrepo)
      rcases hedge : repo.languages.edges with _ | ⟨e, tl⟩
      · rfl
      · exfalso
        rw [hedge] at hz
        have he : 0 < e.size := hpos repo hrepo e (by rw [hedge]; exact List.mem_cons_self e tl)
        simp only [List.map_cons, List.sum_cons] at hz
        omega
    · intro hempty
      apply List.sum_eq_zero
      intro x hx
      rw [List.mem_map] at hx
      obtain ⟨r, hr, rfl⟩ := hx
      rw [hempty r hr]
      rfl

/-- Concrete instantiation of C6: a single repository with no language
edges yields an empty languages list and `totalBytes = 0`, and (all
edge sizes being vacuously positive) the zero-total condition is
equivalent to all-edges-empty there. -/
theorem fetchLanguageStats_zero_bytes_witness :
    (fetchLanguageStatsCore {}
        [{ name := "empty", owner := { login := "u" }, isFork := false
           isPrivate := false
           languages := { pageInfo := none, edges := [] } }]).languages = [] ∧
    (fetchLanguageStatsCore {}
        [{ name := "empty", owner := { login := "u" }, isFork := false
           isPrivate := false
           languages := { pageInfo := none, edges := [] } }]).totalBytes = 0 ∧
    (totalBytesOf (aggregateLanguageStats (filterRepositories {}
        [{ name := "empty", owner := { login := "u" }, isFork := false
           isPrivate := false
           languages := { pageInfo := none, edges := [] } }])) = 0
      ↔ ∀ repo ∈ filterRepositories {}
          [{ name := "empty", owner := { login := "u" }, isFork := false
             isPrivate := false
             languages := { pageInfo := none, edges := [] } }],
          repo.languages.edges = []) := by
  have h := fetchLanguageStats_zero_bytes {}
    [{ name := "empty", owner := { login := "u" }, isFork := false
       isPrivate := false
       languages := { pageInfo := none, edges := [] } }]
  have hmain := h.1 (by decide)
  exact ⟨hmain.1, hmain.2, h.2.2 (by decide)⟩

/-! ## Claim C9 -/

/-- A repository-page response that lets the pagination loop continue:
no errors, data present, matching viewer identity, `hasNextPage`. -/
def continuingRepoPage (username : String) (resp : LangResponse) : Prop :=
  resp.errors = [] ∧
  ∃ viewer conn, resp.viewer = some viewer ∧ viewer.login = username ∧
    viewer.repositories = some conn ∧ conn.pageInfo.hasNextPage = true

/-- A single-repository language-page response that lets the
sub-pagination loop continue: no errors, languages present,
`hasNextPage`. -/
def continuingLangPage (resp : RepoLangsResponse) : Prop :=
  resp.errors = [] ∧
  ∃ conn, resp.repository = some conn ∧ conn.pageInfo.hasNextPage = true

lemma fetchRepoPages_midstream_transport (username status : String) :
    ∀ (pre : List LangResponse) (cursor : Option String)
      (rest : List (Except String LangResponse)),
      (∀ r ∈ pre, continuingRepoPage username r) →
      fetchRepoPages username cursor
          (pre.map Except.ok ++ Except.error status :: rest)
        = .error (.transport status) := by
  intro pre
  induction pre with
  | nil => intro cursor rest _; rfl
  | cons r pre ih =>
    intro cursor rest hcont
    obtain ⟨herr, v, conn, hv, hlogin, hrepo, hnext⟩ :=
      hcont r (List.mem_cons_self r pre)
    have hrec := ih conn.pageInfo.endCursor rest
      (fun q hq => hcont q (List.mem_cons_of_mem _ hq))
    simp [fetchRepoPages, assertNoGraphQLErrors, herr, hv, hrepo, hlogin,
      hnext, hrec]

lemma fetchRemainingRepoLanguages_midstream_transport (status : String) :
    ∀ (pre : List RepoLangsResponse) (cursor : Option String)
      (rest : List (Except String RepoLangsResponse)),
      (∀ r ∈ pre, continuingLangPage r) →
      fetchRemainingRepoLanguages cursor
          (pre.map Except.ok ++ Except.error status :: rest)
        = .error (.transport status) := by
  intro pre
  induction pre with
  | nil => intro cursor rest _; rfl
  | cons r pre ih =>
    intro cursor rest hcont
    obtain ⟨herr, conn, hconn, hnext⟩ := hcont r (List.mem_cons_self r pre)
    have hrec := ih conn.pageInfo.endCursor rest
      (fun q hq => hcont q (List.mem_cons_of_mem _ hq))
    simp [fetchRemainingRepoLanguages, assertNoGraphQLErrors, herr, hconn,
      hnext, hrec]

/-- Claim C9: every transport or validator failure during repository
pagination or language sub-pagination aborts the whole language-stats
operation and surfaces unmodified to the caller. Concretely: (1) any
failure of the fetch-and-enrich phase is the exact result of
`fetchLanguageStats`; (2) any failure of the enrichment phase (after a
successful repository pagination) is the exact result of
`fetchAllRepositories`; (3) a transport failure after any number of
continuing repository pages fails the pagination with that transport
error — the nodes of the earlier pages are discarded, never returned;
(4) likewise a transport failure after any number of continuing
language pages fails the sub-pagination, discarding the
partially-collected language edges. -/
theorem fetchLanguageStats_error_propagation :
    (∀ (username : String) (options : FetchOptions)
        (repoScript : List (Except String LangResponse))
        (langScript : List (Except String RepoLangsResponse)) (e : FetchError),
        fetchAllRepositories username repoScript langScript = .error e →
        fetchLanguageStatsRun username options repoScript langScript = .error e) ∧
    (∀ (username : String) (repoScript : List (Except String LangResponse))
        (langScript : List (Except String RepoLangsResponse))
        (repos : List RepoNode) (cursors : List (Option String)) (e : FetchError),
        fetchRepoPages username none repoScript = .ok (repos, cursors) →
        enrichRepositoriesWithAllLanguages repos langScript = .error e →
        fetchAllRepositories username repoScript langScript = .error e) ∧
    (∀ (username : String) (cursor : Option String) (pre : List LangResponse)
        (status : String) (rest : List (Except String LangResponse)),
        (∀ r ∈ pre, continuingRepoPage username r) →
        fetchRepoPages username cursor
            (pre.map Except.ok ++ Except.error status :: rest)
          = .error (.transport status)) ∧
    (∀ (cursor : Option String) (pre : List RepoLangsResponse)
        (status : String) (rest : List (Except String RepoLangsResponse)),
        (∀ r ∈ pre, continuingLangPage r) →
        fetchRemainingRepoLanguages cursor
            (pre.map Except.ok ++ Except.error status :: rest)
          = .error (.transport status)) := by
  refine ⟨?_, ?_, ?_, ?_⟩
  · intro username options rs ls e h
    unfold fetchLanguageStatsRun
    rw [h]
  · intro username rs ls repos cursors e h1 h2
    simp [fetchAllRepositories, h1, h2]
  · intro username cursor pre status rest hcont
    exact fetchRepoPages_midstream_transport username status pre cursor rest hcont
  · intro cursor pre status rest hcont
    exact fetchRemainingRepoLanguages_midstream_transport status pre cursor rest hcont

/-- Concrete instantiation of C9: a transport failure on the first
repository request aborts `fetchLanguageStats`; a transport failure
after one continuing repository page (resp. language page) aborts the
pagination (resp. sub-pagination); a transport failure during the
enrichment of a truncated repository aborts `fetchAllRepositories`. -/
theorem fetchLanguageStats_error_propagation_witness :
    fetchLanguageStatsRun "u" {} [Except.error "503 Service Unavailable"] []
      = .error (.transport "503 Service Unavailable") ∧
    fetchRepoPages "u" none
        [Except.ok (LangResponse.mk
            (some (Viewer.mk "u"
              (some (RepositoryConnection.mk (PageInfo.mk true (some "c1"))
                [RepoNode.mk "r1" (OwnerRef.mk "u") false false
                  (RepoLanguages.mk none [])]))))
            []),
          Except.error "502 Bad Gateway"]
      = .error (.transport "502 Bad Gateway") ∧
    fetchRemainingRepoLanguages none
        [Except.ok (RepoLangsResponse.mk
            (some (LanguagesConnection.mk (PageInfo.mk true (some "lc"))
              [LanguageEdge.mk 7 (LanguageNode.mk "Zig" none)]))
            []),
          Except.error "500 Internal Server Error"]
      = .error (.transport "500 Internal Server Error") ∧
    fetchAllRepositories "u"
        [Except.ok (LangResponse.mk
            (some (Viewer.mk "u"
              (some (RepositoryConnection.mk (PageInfo.mk false none)
                [RepoNode.mk "r1" (OwnerRef.mk "u") false false
                  (RepoLanguages.mk (some (PageInfo.mk true (some "lc"))) [])]))))
            [])]
        [Except.error "oops"]
      = .error (.transport "oops") := by
  refine ⟨?_, ?_, ?_, ?_⟩
  · exact fetchLanguageStats_error_propagation.1 "u" {}
      [Except.error "503 Service Unavailable"] [] (.transport "503 Service Unavailable") rfl
  · refine fetchLanguageStats_error_propagation.2.2.1 "u" none
      [LangResponse.mk
        (some (Viewer.mk "u"
          (some (RepositoryConnection.mk (PageInfo.mk true (some "c1"))
            [RepoNode.mk "r1" (OwnerRef.mk "u") false false
              (RepoLanguages.mk none [])]))))
        []]
      "502 Bad Gateway" [] ?_
    intro r hr
    rw [List.mem_singleton] at hr
    subst hr
    exact ⟨rfl, _, _, rfl, rfl, rfl, rfl⟩
  · refine fetchLanguageStats_error_propagation.2.2.2 none
      [RepoLangsResponse.mk
        (some (LanguagesConnection.mk (PageInfo.mk true (some "lc"))
          [LanguageEdge.mk 7 (LanguageNode.mk "Zig" none)]))
        []]
      "500 Internal Server Error" [] ?_
    intro r hr
    rw [List.mem_singleton] at hr
    subst hr
    exact ⟨rfl, _, rfl, rfl⟩
  · exact fetchLanguageStats_error_propagation.2.1 "u"
      [Except.ok (LangResponse.mk
          (some (Viewer.mk "u"
            (some (RepositoryConnection.mk (PageInfo.mk false none)
              [RepoNode.mk "r1" (OwnerRef.mk "u") false false
                (RepoLanguages.mk (some (PageInfo.mk true (some "lc"))) [])]))))
          [])]
      [Except.error "oops"]
      [RepoNode.mk "r1" (OwnerRef.mk "u") false false
        (RepoLanguages.mk (some (PageInfo.mk true (some "lc"))) [])]
      [none] (.transport "oops") rfl rfl

/-! ## Claim C10 -/

lemma toLanguageStats_mem_alias {s : LanguageStats} {totalBytes : Nat}
    {m : List (String × LanguageAggregation)}
    (hs : s ∈ toLanguageStats totalBytes m) :
    s.bytesUsed = s.bytes ∧ s.repoCount = s.repos ∧ s.percent = s.percentage := by
  simp only [toLanguageStats, List.mem_map] at hs
  obtain ⟨e, _, rfl⟩ := hs
  exact ⟨rfl, rfl, rfl⟩

/-- Claim C10: every `fetchLanguageStats` result keeps its alias fields
equal to the primary fields — `languageStats = languages`,
`bytesTotal = totalBytes`, `reposTotal = totalRepos =
filteredRepoCounts.total`, `reposAll = repoCounts`,
`reposFiltered = filteredRepoCounts` — and inside every entry
`bytesUsed = bytes`, `repoCount = repos`, `percent = percentage`; this
holds on both the empty-result and the non-empty-result branch. -/
theorem fetchLanguageStats_alias_fields (options : FetchOptions)
    (repositories : List RepoNode) :
    (fetchLanguageStatsCore options repositories).languageStats
        = (fetchLanguageStatsCore options repositories).languages ∧
    (fetchLanguageStatsCore options repositories).bytesTotal
        = (fetchLanguageStatsCore options repositories).totalBytes ∧
    (fetchLanguageStatsCore options repositories).reposTotal
        = (fetchLanguageStatsCore options repositories).totalRepos ∧
    (fetchLanguageStatsCore options repositories).totalRepos
        = (fetchLanguageStatsCore options repositories).filteredRepoCounts.total ∧
    (fetchLanguageStatsCore options repositories).reposAll
        = (fetchLanguageStatsCore options repositories).repoCounts ∧
    (fetchLanguageStatsCore options repositories).reposFiltered
        = (fetchLanguageStatsCore options repositories).filteredRepoCounts ∧
    (∀ s ∈ (fetchLanguageStatsCore options repositories).languages,
      s.bytesUsed = s.bytes ∧ s.repoCount = s.repos ∧ s.percent = s.percentage) := by
  by_cases h0 : totalBytesOf
      (aggregateLanguageStats (filterRepositories options repositories)) = 0
  · refine ⟨?_, ?_, ?_, ?_, ?_, ?_, ?_⟩ <;>
      simp [fetchLanguageStatsCore, h0, getRepoCounts]
  · have hres : (fetchLanguageStatsCore options repositories).languages
        = sortByPercentageDesc (toLanguageStats
            (totalBytesOf (aggregateLanguageStats (filterRepositories options repositories)))
            (aggregateLanguageStats (filterRepositories options repositories))) := by
      simp [fetchLanguageStatsCore, h0]
    refine ⟨?_, ?_, ?_, ?_, ?_, ?_, ?_⟩
    · simp [fetchLanguageStatsCore, h0]
    · simp [fetchLanguageStatsCore, h0]
    · simp [fetchLanguageStatsCore, h0]
    · simp [fetchLanguageStatsCore, h0, getRepoCounts]
    · simp [fetchLanguageStatsCore, h0]
    · simp [fetchLanguageStatsCore, h0]
    · intro s hs
      rw [hres] at hs
      have hmem := (sortByPercentageDesc_perm _).mem_iff.mp hs
      exact toLanguageStats_mem_alias hmem

/-- Concrete instantiation of C10 on a repository with a single
TypeScript edge: the record-level aliases agree, and the aliases inside
the unique returned entry agree. -/
theorem fetchLanguageStats_alias_fields_witness :
    (fetchLanguageStatsCore {}
        [{ name := "r", owner := { login := "u" }, isFork := false
           isPrivate := false
           languages := { pageInfo := none
                          edges := [{ size := 4, node := { name := "TypeScript", color := none } }] } }]).languageStats
      = (fetchLanguageStatsCore {}
        [{ name := "r", owner := { login := "u" }, isFork := false
           isPrivate := false
           languages := { pageInfo := none
                          edges := [{ size := 4, node := { name := "TypeScript", color := none } }] } }]).languages ∧
    (fetchLanguageStatsCore {}
        [{ name := "r", owner := { login := "u" }, isFork := false
           isPrivate := false
           languages := { pageInfo := none
                          edges := [{ size := 4, node := { name := "TypeScript", color := none } }] } }]).bytesTotal
      = (fetchLanguageStatsCore {}
        [{ name := "r", owner := { login := "u" }, isFork := false
           isPrivate := false
           languages := { pageInfo := none
                          edges := [{ size := 4, node := { name := "TypeScript", color := none } }] } }]).totalBytes ∧
    (∀ s ∈ (fetchLanguageStatsCore {}
        [{ name := "r", owner := { login := "u" }, isFork := false
           isPrivate := false
           languages := { pageInfo := none
                          edges := [{ size := 4, node := { name := "TypeScript", color := none } }] } }]).languages,
      s.bytesUsed = s.bytes ∧ s.repoCount = s.repos ∧ s.percent = s.percentage) := by
  have h := fetchLanguageStats_alias_fields {}
    [{ name := "r", owner := { login := "u" }, isFork := false
       isPrivate := false
       languages := { pageInfo := none
                      edges := [{ size := 4, node := { name := "TypeScript", color := none } }] } }]
  exact ⟨h.1, h.2.1, h.2.2.2.2.2.2⟩
